import Mathlib

/-!
Verification of the SSE streaming layer of `anthropic-tools`
(`src/messages/streaming.rs` and the data types it uses), as a shallow
embedding: Rust structs and enums become Lean structures and inductives,
`StreamAccumulator::process_event` becomes a pure state-transformer,
`parse_sse_line` becomes a pure function parameterised by the JSON
decoder (`serde_json::from_str` is an external crate, so it enters as a
function argument).
-/

/-- Model of `serde_json::Value` (numbers abstracted to `Int`; no claim inspects them). -/
inductive Json where
  | null
  | bool (b : Bool)
  | num (n : Int)
  | str (s : String)
  | arr (elems : List Json)
  | obj (entries : List (String × Json))

/-- Struct `CacheControl` from `request/content.rs`. -/
structure CacheControl where
  type_name : String
deriving Repr, DecidableEq

/-- Struct `ImageSource` from `request/content.rs`. -/
structure ImageSource where
  type_name : String
  media_type : Option String
  data : Option String
  url : Option String
deriving Repr, DecidableEq

/-- Struct `DocumentSource` from `request/content.rs`. -/
structure DocumentSource where
  type_name : String
  media_type : Option String
  data : Option String
  url : Option String
deriving Repr, DecidableEq

/-- Enum `ContentBlock` from `request/content.rs`. -/
inductive ContentBlock where
  | Text (text : String) (cache_control : Option CacheControl)
  | Image (source : ImageSource) (cache_control : Option CacheControl)
  | ToolUse (id : String) (name : String) (input : Json)
  | ToolResult (tool_use_id : String) (content : Option (List ContentBlock))
      (is_error : Option Bool)
  | Thinking (thinking : String) (signature : Option String)
  | Document (source : DocumentSource) (cache_control : Option CacheControl)

/-- Struct `Usage` from `common/usage.rs`. -/
structure Usage where
  input_tokens : Nat
  output_tokens : Nat
  cache_creation_input_tokens : Option Nat
  cache_read_input_tokens : Option Nat
deriving Repr, DecidableEq

/-- Constructor `Usage::new`. -/
def Usage.new (input_tokens output_tokens : Nat) : Usage :=
  ⟨input_tokens, output_tokens, none, none⟩

/-- Enum `Role` from `request/role.rs`. -/
inductive Role where
  | User
  | Assistant
deriving Repr, DecidableEq

/-- Enum `StopReason` from `response.rs`. -/
inductive StopReason where
  | EndTurn
  | MaxTokens
  | StopSequence
  | ToolUse
deriving Repr, DecidableEq

/-- Struct `Response` from `response.rs`. -/
structure Response where
  id : String
  type_name : String
  role : Role
  content : List ContentBlock
  model : String
  stop_reason : Option StopReason
  stop_sequence : Option String
  usage : Usage

/-- Struct `ErrorDetail` from `common/errors.rs`. -/
structure ErrorDetail where
  type_name : String
  message : String
deriving Repr, DecidableEq

/-- Enum `AnthropicToolError` from `common/errors.rs` (payloads of external error
types rendered as strings). -/
inductive AnthropicToolError where
  | ApiKeyNotSet
  | MissingRequiredField (msg : String)
  | InvalidParameter (msg : String)
  | RequestError (msg : String)
  | SerdeJsonError (msg : String)
  | ApiError (error_type : String) (message : String) (request_id : Option String)
  | InvalidRequestError (msg : String)
  | AuthenticationError (msg : String)
  | PermissionError (msg : String)
  | NotFoundError (msg : String)
  | RateLimitError (msg : String)
  | OverloadedError (msg : String)
  | IoError (msg : String)
deriving Repr, DecidableEq

/-- Struct `MessageDelta` from `streaming.rs`. -/
structure MessageDelta where
  stop_reason : Option String
  stop_sequence : Option String
deriving Repr, DecidableEq

/-- Enum `Delta` from `streaming.rs`. -/
inductive Delta where
  | TextDelta (text : String)
  | InputJsonDelta (partial_json : String)
  | ThinkingDelta (thinking : String)
  | SignatureDelta (signature : String)
deriving Repr, DecidableEq

/-- Enum `StreamEvent` from `streaming.rs`. -/
inductive StreamEvent where
  | MessageStart (message : Response)
  | ContentBlockStart (index : Nat) (content_block : ContentBlock)
  | Ping
  | ContentBlockDelta (index : Nat) (delta : Delta)
  | ContentBlockStop (index : Nat)
  | MessageDelta (delta : MessageDelta) (usage : Usage)
  | MessageStop
  | Error (error : ErrorDetail)

/-- Constant `SSE_DATA_PREFIX` from `streaming.rs`. -/
def sseDataMarker : String := "data: "

/-- Constant `SSE_EVENT_PREFIX` from `streaming.rs`. -/
def sseEventMarker : String := "event: "

/-- Drop leading whitespace characters (the left half of `str::trim`;
Rust's `char::is_whitespace` rendered as `Char.isWhitespace`). -/
def trimLeftChars : List Char → List Char
  | [] => []
  | c :: cs => if c.isWhitespace then trimLeftChars cs else c :: cs

/-- Rust `str::trim`: strip whitespace from both ends. -/
def rustTrim (s : String) : String :=
  ⟨(trimLeftChars ((trimLeftChars s.data).reverse)).reverse⟩

/-- Rust `str::starts_with` on the character-sequence view. -/
def rustStartsWith (s p : String) : Bool :=
  p.data.isPrefixOf s.data

/-- Rust `str::strip_prefix`: `some` of the remainder when `p` leads `s`. -/
def rustStripStart (s p : String) : Option String :=
  if rustStartsWith s p then some ⟨s.data.drop p.data.length⟩ else none

/-- Function `parse_sse_line` from `streaming.rs`. Here `fromStr` stands for the external
`serde_json::from_str::<StreamEvent>`; the `?` operator converts its error
into `AnthropicToolError::SerdeJsonError`. -/
def parse_sse_line (fromStr : String → Except String StreamEvent) (line : String) :
    Except AnthropicToolError (Option StreamEvent) :=
  if (rustTrim line).data.isEmpty then Except.ok none
  else if rustStartsWith line sseEventMarker then Except.ok none
  else
    match rustStripStart line sseDataMarker with
    | some data =>
        if rustTrim data = "[DONE]" then Except.ok none
        else
          match fromStr data with
          | Except.ok event => Except.ok (some event)
          | Except.error e => Except.error (AnthropicToolError.SerdeJsonError e)
    | none => Except.ok none

/-- Struct `StreamAccumulator` from `streaming.rs`; the `HashMap<String, String>`
`tool_inputs` is modelled as an association list observed through lookup. -/
structure StreamAccumulator where
  text : String
  tool_inputs : List (String × String)
  thinking : String
  content_blocks : List ContentBlock
  usage : Option Usage
  stop_reason : Option String
  model : Option String
  id : Option String

/-- Constructor `StreamAccumulator::new` (the `Default` instance: everything empty). -/
def StreamAccumulator.new : StreamAccumulator :=
  ⟨"", [], "", [], none, none, none, none⟩

/-- Lookup of a `HashMap` key on the association-list model of `tool_inputs`. -/
def lookupToolInput : List (String × String) → String → Option String
  | [], _ => none
  | (k', v) :: rest, k => if k' = k then some v else lookupToolInput rest k

/-- Model of `self.tool_inputs.entry(k).or_default().push_str(v)`: append `v` to the
entry at key `k`, creating it (as the empty string, then extended) if absent. -/
def appendToolInput : List (String × String) → String → String → List (String × String)
  | [], k, v => [(k, v)]
  | (k', v') :: rest, k, v =>
      if k' = k then (k', v' ++ v) :: rest
      else (k', v') :: appendToolInput rest k v

/-- The `while self.content_blocks.len() <= index` padding loop in the
`ContentBlockStart` arm: push empty placeholder `Text` blocks until the
vector has more than `index` slots. -/
def padBlocks (blocks : List ContentBlock) (index : Nat) : List ContentBlock :=
  if blocks.length ≤ index then
    padBlocks (blocks ++ [ContentBlock.Text "" none]) index
  else blocks
termination_by index + 1 - blocks.length
decreasing_by simp only [List.length_append, List.length_cons, List.length_nil]; omega

/-- Method `StreamAccumulator::process_event` from `streaming.rs`. -/
def StreamAccumulator.process_event (acc : StreamAccumulator) (event : StreamEvent) :
    StreamAccumulator :=
  match event with
  | StreamEvent.MessageStart message =>
      { acc with id := some message.id, model := some message.model }
  | StreamEvent.ContentBlockStart index content_block =>
      { acc with
          content_blocks := (padBlocks acc.content_blocks index).set index content_block }
  | StreamEvent.ContentBlockDelta index delta =>
      match delta with
      | Delta.TextDelta text =>
          match acc.content_blocks[index]? with
          | some (ContentBlock.Text block_text cc) =>
              { acc with
                  text := acc.text ++ text,
                  content_blocks :=
                    acc.content_blocks.set index (ContentBlock.Text (block_text ++ text) cc) }
          | _ => { acc with text := acc.text ++ text }
      | Delta.InputJsonDelta partial_json =>
          match acc.content_blocks[index]? with
          | some (ContentBlock.ToolUse id _ _) =>
              { acc with tool_inputs := appendToolInput acc.tool_inputs id partial_json }
          | _ => acc
      | Delta.ThinkingDelta thinking =>
          { acc with thinking := acc.thinking ++ thinking }
      | Delta.SignatureDelta _ => acc
  | StreamEvent.ContentBlockStop _ => acc
  | StreamEvent.MessageDelta delta usage =>
      { acc with stop_reason := delta.stop_reason, usage := some usage }
  | StreamEvent.MessageStop => acc
  | StreamEvent.Ping => acc
  | StreamEvent.Error _ => acc

/-- Method `StreamAccumulator::get_text`. -/
def StreamAccumulator.get_text (acc : StreamAccumulator) : String := acc.text

/-- Method `StreamAccumulator::is_complete`. -/
def StreamAccumulator.is_complete (acc : StreamAccumulator) : Bool :=
  acc.stop_reason.isSome

/-! ### Derived views of an event, used to state accumulation properties -/

/-- The text payload an event contributes to the global `text` view:
the payload of a `TextDelta`, and the empty string for every other event. -/
def textAppendOf : StreamEvent → String
  | StreamEvent.ContentBlockDelta _ (Delta.TextDelta t) => t
  | _ => ""

/-- The payload an event contributes to the global `thinking` view. -/
def thinkingAppendOf : StreamEvent → String
  | StreamEvent.ContentBlockDelta _ (Delta.ThinkingDelta t) => t
  | _ => ""

/-- The fragment an event contributes to the `tool_inputs` entry at key `k`,
given the accumulator state it is processed in: the `partial_json` of an
`InputJsonDelta` whose target slot holds a `ToolUse` block with id `k`. -/
def toolAppendOf (acc : StreamAccumulator) (e : StreamEvent) (k : String) : String :=
  match e with
  | StreamEvent.ContentBlockDelta index (Delta.InputJsonDelta pj) =>
      match acc.content_blocks[index]? with
      | some (ContentBlock.ToolUse id _ _) => if k = id then pj else ""
      | _ => ""
  | _ => ""

/-- Whether an event is a `MessageDelta`. -/
def isMessageDeltaEvent : StreamEvent → Bool
  | StreamEvent.MessageDelta _ _ => true
  | _ => false

/-- The `text` payloads of the `TextDelta` events of a stream, in order. -/
def textDeltaPayloads (events : List StreamEvent) : List String :=
  events.filterMap fun e =>
    match e with
    | StreamEvent.ContentBlockDelta _ (Delta.TextDelta t) => some t
    | _ => none

/-- Concatenation of a list of strings, in order. -/
def concatStrings : List String → String
  | [] => ""
  | s :: rest => s ++ concatStrings rest

/-- A concrete `Response` envelope (used to exercise `MessageStart`). -/
def mkResponse (id model : String) : Response :=
  ⟨id, "message", Role.Assistant, [], model, none, none, Usage.new 0 0⟩

/-! ### Helper lemmas -/

/-- The padding loop appends exactly `index + 1 - blocks.length` placeholder
empty `Text` blocks. -/
theorem padBlocks_eq (blocks : List ContentBlock) (index : Nat) :
    padBlocks blocks index
      = blocks ++ List.replicate (index + 1 - blocks.length) (ContentBlock.Text "" none) := by
  generalize hn : index + 1 - blocks.length = n
  induction n generalizing blocks with
  | zero =>
      rw [padBlocks, if_neg (by omega), List.replicate_zero, List.append_nil]
  | succ n ih =>
      have hlen : blocks.length ≤ index := by omega
      have hm : index + 1 - (blocks ++ [ContentBlock.Text "" none]).length = n := by
        simp only [List.length_append, List.length_cons, List.length_nil]
        omega
      rw [padBlocks, if_pos hlen, ih _ hm, List.append_assoc, List.singleton_append,
        ← List.replicate_succ]

/-- Lookup after `appendToolInput`: key `k` gets the old value (empty when
absent) extended with `v`; every other key is untouched. -/
theorem lookupToolInput_appendToolInput (m : List (String × String)) (k v j : String) :
    lookupToolInput (appendToolInput m k v) j
      = if j = k then some ((lookupToolInput m k).getD "" ++ v)
        else lookupToolInput m j := by
  induction m with
  | nil =>
      by_cases hj : j = k
      · subst hj; simp [appendToolInput, lookupToolInput]
      · have hk : ¬ (k = j) := fun h => hj h.symm
        simp [appendToolInput, lookupToolInput, hj, hk]
  | cons hd tl ih =>
      obtain ⟨k', v'⟩ := hd
      by_cases hk : k' = k
      · subst hk
        by_cases hj : j = k'
        · subst hj; simp [appendToolInput, lookupToolInput]
        · have hj' : ¬ (k' = j) := fun h => hj h.symm
          simp [appendToolInput, lookupToolInput, hj, hj']
      · by_cases hj : k' = j
        · subst hj
          have hjk : ¬ (k' = k) := hk
          simp [appendToolInput, lookupToolInput, hk, hjk]
        · simp [appendToolInput, lookupToolInput, hk, hj, ih]

/-- Effect of one event on the global `text` view. -/
theorem process_event_text (acc : StreamAccumulator) (e : StreamEvent) :
    (acc.process_event e).text = acc.text ++ textAppendOf e := by
  cases e with
  | ContentBlockDelta index delta =>
      cases delta with
      | TextDelta t =>
          simp only [StreamAccumulator.process_event, textAppendOf]
          split <;> rfl
      | InputJsonDelta pj =>
          simp only [StreamAccumulator.process_event, textAppendOf]
          split <;> simp
      | ThinkingDelta t => simp [StreamAccumulator.process_event, textAppendOf]
      | SignatureDelta s => simp [StreamAccumulator.process_event, textAppendOf]
  | MessageStart m => simp [StreamAccumulator.process_event, textAppendOf]
  | ContentBlockStart i b => simp [StreamAccumulator.process_event, textAppendOf]
  | Ping => simp [StreamAccumulator.process_event, textAppendOf]
  | ContentBlockStop i => simp [StreamAccumulator.process_event, textAppendOf]
  | MessageDelta d u => simp [StreamAccumulator.process_event, textAppendOf]
  | MessageStop => simp [StreamAccumulator.process_event, textAppendOf]
  | Error err => simp [StreamAccumulator.process_event, textAppendOf]

/-- Effect of one event on the global `thinking` view. -/
theorem process_event_thinking (acc : StreamAccumulator) (e : StreamEvent) :
    (acc.process_event e).thinking = acc.thinking ++ thinkingAppendOf e := by
  cases e with
  | ContentBlockDelta index delta =>
      cases delta with
      | TextDelta t =>
          simp only [StreamAccumulator.process_event, thinkingAppendOf]
          split <;> simp
      | InputJsonDelta pj =>
          simp only [StreamAccumulator.process_event, thinkingAppendOf]
          split <;> simp
      | ThinkingDelta t => simp [StreamAccumulator.process_event, thinkingAppendOf]
      | SignatureDelta s => simp [StreamAccumulator.process_event, thinkingAppendOf]
  | MessageStart m => simp [StreamAccumulator.process_event, thinkingAppendOf]
  | ContentBlockStart i b => simp [StreamAccumulator.process_event, thinkingAppendOf]
  | Ping => simp [StreamAccumulator.process_event, thinkingAppendOf]
  | ContentBlockStop i => simp [StreamAccumulator.process_event, thinkingAppendOf]
  | MessageDelta d u => simp [StreamAccumulator.process_event, thinkingAppendOf]
  | MessageStop => simp [StreamAccumulator.process_event, thinkingAppendOf]
  | Error err => simp [StreamAccumulator.process_event, thinkingAppendOf]

/-- Any event other than a `MessageDelta` leaves `stop_reason` unchanged. -/
theorem process_event_stop_reason (acc : StreamAccumulator) (e : StreamEvent)
    (h : isMessageDeltaEvent e = false) :
    (acc.process_event e).stop_reason = acc.stop_reason := by
  cases e with
  | ContentBlockDelta index delta =>
      cases delta with
      | TextDelta t =>
          simp only [StreamAccumulator.process_event]
          split <;> rfl
      | InputJsonDelta pj =>
          simp only [StreamAccumulator.process_event]
          split <;> rfl
      | ThinkingDelta t => rfl
      | SignatureDelta s => rfl
  | MessageStart m => rfl
  | ContentBlockStart i b => rfl
  | Ping => rfl
  | ContentBlockStop i => rfl
  | MessageDelta d u => simp [isMessageDeltaEvent] at h
  | MessageStop => rfl
  | Error err => rfl

/-- A nonempty list is not `isEmpty`. -/
theorem isEmpty_false_of_ne_nil {l : List Char} (h : l ≠ []) : l.isEmpty = false := by
  cases l with
  | nil => exact absurd rfl h
  | cons a as => rfl

/-- Left-trimming a list that ends in a non-whitespace character never
empties it. -/
theorem trimLeftChars_append_ne_nil (xs : List Char) (c : Char)
    (hc : c.isWhitespace = false) : trimLeftChars (xs ++ [c]) ≠ [] := by
  induction xs with
  | nil => simp [trimLeftChars, hc]
  | cons x xs ih =>
      by_cases hx : x.isWhitespace
      · simpa [trimLeftChars, hx] using ih
      · simp [trimLeftChars, hx]

/-- A string whose first character is not whitespace does not trim to the
empty string. -/
theorem rustTrim_isEmpty_false (s : String) (c : Char) (tl : List Char)
    (hs : s.data = c :: tl) (hc : c.isWhitespace = false) :
    (rustTrim s).data.isEmpty = false := by
  have h1 : trimLeftChars s.data = c :: tl := by rw [hs]; simp [trimLeftChars, hc]
  show ((trimLeftChars ((trimLeftChars s.data).reverse)).reverse).isEmpty = false
  rw [h1, List.reverse_cons]
  apply isEmpty_false_of_ne_nil
  intro hnil
  rw [List.reverse_eq_nil_iff] at hnil
  exact trimLeftChars_append_ne_nil _ c hc hnil

/-- A list led by `c` starts with `c`, and the rest continues the prefix. -/
theorem cons_of_isPrefixOf {c : Char} {p l : List Char}
    (h : (c :: p).isPrefixOf l = true) : ∃ tl, l = c :: tl := by
  cases l with
  | nil => simp [List.isPrefixOf] at h
  | cons b bs =>
      simp only [List.isPrefixOf, Bool.and_eq_true, beq_iff_eq] at h
      exact ⟨bs, by rw [h.1]⟩

/-- A successful `strip_prefix` of the SSE data marker means the line starts
with it and the remainder is the rest of the characters. -/
theorem rustStripStart_data_elim {line data : String}
    (h : rustStripStart line sseDataMarker = some data) :
    rustStartsWith line sseDataMarker = true
    ∧ data = ⟨line.data.drop (sseDataMarker.data).length⟩
    ∧ ∃ tl, line.data = 'd' :: tl := by
  by_cases hsw : rustStartsWith line sseDataMarker
  · refine ⟨hsw, ?_, ?_⟩
    · simp only [rustStripStart, hsw, if_pos] at h
      injection h with h2
      exact h2.symm
    · exact cons_of_isPrefixOf (p := "ata: ".data) hsw
  · simp [rustStripStart, hsw] at h

/-- A line starting with `'d'` does not start with the SSE event marker. -/
theorem not_event_marker {line : String} {tl : List Char}
    (h : line.data = 'd' :: tl) :
    rustStartsWith line sseEventMarker = false := by
  show ("event: ".data).isPrefixOf line.data = false
  rw [h]
  rfl

/-! ### The claims -/

/-- C1: for every sequence of processed events, `get_text()` returns exactly
the concatenation, in arrival order, of the text payloads of all `TextDelta`
events processed so far, across all indices, with no bytes dropped or
reordered. -/
theorem C1_get_text_is_concatenation (events : List StreamEvent) :
    (events.foldl StreamAccumulator.process_event StreamAccumulator.new).get_text
      = concatStrings (textDeltaPayloads events) := by
  have main : ∀ (evs : List StreamEvent) (acc : StreamAccumulator),
      (evs.foldl StreamAccumulator.process_event acc).text
        = acc.text ++ concatStrings (textDeltaPayloads evs) := by
    intro evs
    induction evs with
    | nil => intro acc; simp [textDeltaPayloads, concatStrings]
    | cons e es ih =>
        intro acc
        rw [List.foldl_cons, ih, process_event_text]
        cases e with
        | ContentBlockDelta i d =>
            cases d <;>
              simp [textAppendOf, textDeltaPayloads, concatStrings, String.append_assoc]
        | MessageStart m => simp [textAppendOf, textDeltaPayloads, concatStrings]
        | ContentBlockStart i b => simp [textAppendOf, textDeltaPayloads, concatStrings]
        | Ping => simp [textAppendOf, textDeltaPayloads, concatStrings]
        | ContentBlockStop i => simp [textAppendOf, textDeltaPayloads, concatStrings]
        | MessageDelta d u => simp [textAppendOf, textDeltaPayloads, concatStrings]
        | MessageStop => simp [textAppendOf, textDeltaPayloads, concatStrings]
        | Error err => simp [textAppendOf, textDeltaPayloads, concatStrings]
  have h := main events StreamAccumulator.new
  simpa [StreamAccumulator.get_text, StreamAccumulator.new] using h

/-- C2: processing `ContentBlockStart{index, block}` never fails: the block
vector is padded with empty placeholder `Text` blocks up to and including
`index` (so exactly `index + 1 - len` placeholders are appended when it has
`len < index + 1` slots), and slot `index` is then set to the supplied block
(full replacement); in particular slot `index` afterwards holds exactly
`block`. -/
theorem C2_content_block_start_pads_and_replaces (acc : StreamAccumulator)
    (index : Nat) (block : ContentBlock) :
    (acc.process_event (StreamEvent.ContentBlockStart index block)).content_blocks
        = (acc.content_blocks
            ++ List.replicate (index + 1 - acc.content_blocks.length)
                (ContentBlock.Text "" none)).set index block
    ∧ (acc.process_event (StreamEvent.ContentBlockStart index block)).content_blocks[index]?
        = some block := by
  constructor
  · show (padBlocks acc.content_blocks index).set index block = _
    rw [padBlocks_eq]
  · show ((padBlocks acc.content_blocks index).set index block)[index]? = some block
    apply List.getElem?_set_eq_of_lt
    rw [padBlocks_eq]
    simp only [List.length_append, List.length_replicate]
    omega

/-- C3 counterexample: processing one `MessageDelta` whose `stop_reason` is
absent leaves `is_complete()` false, refuting "is true immediately after
processing one MessageDelta event". -/
theorem C3_counterexample :
    (StreamAccumulator.new.process_event
        (StreamEvent.MessageDelta ⟨none, none⟩ (Usage.new 1 1))).is_complete = false := rfl

/-- C3 (amended): `is_complete()` is false before any `MessageDelta` has been
processed; immediately after processing a `MessageDelta` it equals whether
that delta carried a `stop_reason` (so it is true after one whose
`stop_reason` is present, even if `MessageStop` never arrives); and
`is_complete()` returns true iff `stop_reason` is set. -/
theorem C3_is_complete_iff_stop_reason :
    (∀ events : List StreamEvent,
        (∀ e ∈ events, isMessageDeltaEvent e = false) →
        (events.foldl StreamAccumulator.process_event StreamAccumulator.new).is_complete
          = false)
    ∧ (∀ (acc : StreamAccumulator) (d : MessageDelta) (u : Usage),
        (acc.process_event (StreamEvent.MessageDelta d u)).is_complete
          = d.stop_reason.isSome)
    ∧ (∀ acc : StreamAccumulator, acc.is_complete = acc.stop_reason.isSome) := by
  refine ⟨?_, fun acc d u => rfl, fun acc => rfl⟩
  intro events h
  have main : ∀ (evs : List StreamEvent) (acc : StreamAccumulator),
      (∀ e ∈ evs, isMessageDeltaEvent e = false) →
      (evs.foldl StreamAccumulator.process_event acc).stop_reason = acc.stop_reason := by
    intro evs
    induction evs with
    | nil => intro acc _; rfl
    | cons e es ih =>
        intro acc hh
        rw [List.foldl_cons, ih _ (fun x hx => hh x (List.mem_cons_of_mem _ hx)),
          process_event_stop_reason _ _ (hh e (List.mem_cons_self _ _))]
  show (events.foldl StreamAccumulator.process_event StreamAccumulator.new).stop_reason.isSome
      = false
  rw [main events _ h]
  rfl

/-- Witness for C3: a stream with only a `Ping` is not complete. -/
theorem C3_witness :
    ([StreamEvent.Ping].foldl StreamAccumulator.process_event
        StreamAccumulator.new).is_complete = false :=
  C3_is_complete_iff_stop_reason.1 [StreamEvent.Ping]
    (by intro e he; rw [List.mem_singleton] at he; subst he; rfl)

/-- C4 counterexample: after a `MessageDelta` records `stop_reason`
`"end_turn"`, a later `MessageDelta` with an absent `stop_reason` overwrites
it, and `is_complete()` transitions from true back to false. -/
theorem C4_counterexample :
    (StreamAccumulator.new.process_event
        (StreamEvent.MessageDelta ⟨some "end_turn", none⟩ (Usage.new 1 1))).is_complete = true
    ∧ ((StreamAccumulator.new.process_event
          (StreamEvent.MessageDelta ⟨some "end_turn", none⟩ (Usage.new 1 1))).process_event
        (StreamEvent.MessageDelta ⟨none, none⟩ (Usage.new 2 2))).is_complete = false :=
  ⟨rfl, rfl⟩

/-- C4 (amended): once a stop reason has been recorded, the accumulator
remains terminal under every further event except a `MessageDelta` whose
`delta.stop_reason` is absent, which overwrites the stored stop reason with
`none` and resets `is_complete()` to false. -/
theorem C4_terminal_preserved (acc : StreamAccumulator) (e : StreamEvent)
    (hc : acc.is_complete = true)
    (h : ∀ (d : MessageDelta) (u : Usage), d.stop_reason = none →
        e ≠ StreamEvent.MessageDelta d u) :
    (acc.process_event e).is_complete = true := by
  cases e with
  | MessageDelta d u =>
      cases hd : d.stop_reason with
      | none => exact absurd rfl (h d u hd)
      | some r =>
          show (acc.process_event (StreamEvent.MessageDelta d u)).stop_reason.isSome = true
          simp [StreamAccumulator.process_event, hd]
  | MessageStart m =>
      show (acc.process_event (StreamEvent.MessageStart m)).stop_reason.isSome = true
      rw [process_event_stop_reason acc (StreamEvent.MessageStart m) rfl]
      exact hc
  | ContentBlockStart i b =>
      show (acc.process_event (StreamEvent.ContentBlockStart i b)).stop_reason.isSome = true
      rw [process_event_stop_reason acc (StreamEvent.ContentBlockStart i b) rfl]
      exact hc
  | ContentBlockDelta i d =>
      show (acc.process_event (StreamEvent.ContentBlockDelta i d)).stop_reason.isSome = true
      rw [process_event_stop_reason acc (StreamEvent.ContentBlockDelta i d) rfl]
      exact hc
  | ContentBlockStop i =>
      show (acc.process_event (StreamEvent.ContentBlockStop i)).stop_reason.isSome = true
      rw [process_event_stop_reason acc (StreamEvent.ContentBlockStop i) rfl]
      exact hc
  | Ping =>
      show (acc.process_event StreamEvent.Ping).stop_reason.isSome = true
      rw [process_event_stop_reason acc StreamEvent.Ping rfl]
      exact hc
  | MessageStop =>
      show (acc.process_event StreamEvent.MessageStop).stop_reason.isSome = true
      rw [process_event_stop_reason acc StreamEvent.MessageStop rfl]
      exact hc
  | Error err =>
      show (acc.process_event (StreamEvent.Error err)).stop_reason.isSome = true
      rw [process_event_stop_reason acc (StreamEvent.Error err) rfl]
      exact hc

/-- Witness for C4: a completed accumulator stays complete through a `Ping`. -/
theorem C4_witness :
    ((StreamAccumulator.new.process_event
          (StreamEvent.MessageDelta ⟨some "end_turn", none⟩ (Usage.new 1 1))).process_event
        StreamEvent.Ping).is_complete = true :=
  C4_terminal_preserved _ StreamEvent.Ping rfl
    (fun _ _ _ hne => StreamEvent.noConfusion hne)

/-- C5 counterexample: a second `MessageStart` overwrites both `id` and
`model`, refuting "set exactly once from the first MessageStart and never
overwritten". -/
theorem C5_counterexample :
    ((StreamAccumulator.new.process_event
          (StreamEvent.MessageStart (mkResponse "msg_a" "model_a"))).process_event
        (StreamEvent.MessageStart (mkResponse "msg_b" "model_b"))).id ≠ some "msg_a"
    ∧ ((StreamAccumulator.new.process_event
          (StreamEvent.MessageStart (mkResponse "msg_a" "model_a"))).process_event
        (StreamEvent.MessageStart (mkResponse "msg_b" "model_b"))).id = some "msg_b"
    ∧ ((StreamAccumulator.new.process_event
          (StreamEvent.MessageStart (mkResponse "msg_a" "model_a"))).process_event
        (StreamEvent.MessageStart (mkResponse "msg_b" "model_b"))).model ≠ some "model_a"
    ∧ ((StreamAccumulator.new.process_event
          (StreamEvent.MessageStart (mkResponse "msg_a" "model_a"))).process_event
        (StreamEvent.MessageStart (mkResponse "msg_b" "model_b"))).model = some "model_b" := by
  refine ⟨?_, rfl, ?_, rfl⟩ <;> decide

/-- C5 (amended): `id` and `model` are copied from every `MessageStart`
event (so a later `MessageStart` overwrites them), and no event other than
`MessageStart` changes them. -/
theorem C5_id_model_from_message_start :
    (∀ (acc : StreamAccumulator) (m : Response),
        (acc.process_event (StreamEvent.MessageStart m)).id = some m.id
        ∧ (acc.process_event (StreamEvent.MessageStart m)).model = some m.model)
    ∧ (∀ (acc : StreamAccumulator) (e : StreamEvent),
        (∀ m : Response, e ≠ StreamEvent.MessageStart m) →
        (acc.process_event e).id = acc.id ∧ (acc.process_event e).model = acc.model) := by
  refine ⟨fun acc m => ⟨rfl, rfl⟩, ?_⟩
  intro acc e h
  cases e with
  | MessageStart m => exact absurd rfl (h m)
  | ContentBlockStart i b => exact ⟨rfl, rfl⟩
  | Ping => exact ⟨rfl, rfl⟩
  | ContentBlockDelta i d =>
      cases d with
      | TextDelta t =>
          constructor <;> (simp only [StreamAccumulator.process_event]; split <;> rfl)
      | InputJsonDelta pj =>
          constructor <;> (simp only [StreamAccumulator.process_event]; split <;> rfl)
      | ThinkingDelta t => exact ⟨rfl, rfl⟩
      | SignatureDelta s => exact ⟨rfl, rfl⟩
  | ContentBlockStop i => exact ⟨rfl, rfl⟩
  | MessageDelta d u => exact ⟨rfl, rfl⟩
  | MessageStop => exact ⟨rfl, rfl⟩
  | Error err => exact ⟨rfl, rfl⟩

/-- Witness for C5: a `Ping` leaves `id` and `model` untouched. -/
theorem C5_witness :
    (StreamAccumulator.new.process_event StreamEvent.Ping).id = StreamAccumulator.new.id
    ∧ (StreamAccumulator.new.process_event StreamEvent.Ping).model
        = StreamAccumulator.new.model :=
  C5_id_model_from_message_start.2 StreamAccumulator.new StreamEvent.Ping
    (fun _ hne => StreamEvent.noConfusion hne)

/-- C6: an `InputJsonDelta{partial_json}` at `index` appends the fragment to
`tool_inputs` under the target `ToolUse` block's id (creating the entry, as
the extension of the empty string, if absent) and changes no other
`tool_inputs` entry; when the slot is absent or holds a non-`ToolUse` block
the fragment is dropped and no field of the accumulator changes. -/
theorem C6_input_json_delta_frame (acc : StreamAccumulator) (index : Nat) (pj : String) :
    (∀ k : String,
        lookupToolInput
            (acc.process_event
              (StreamEvent.ContentBlockDelta index (Delta.InputJsonDelta pj))).tool_inputs k
          = match acc.content_blocks[index]? with
            | some (ContentBlock.ToolUse id _ _) =>
                if k = id then some ((lookupToolInput acc.tool_inputs id).getD "" ++ pj)
                else lookupToolInput acc.tool_inputs k
            | _ => lookupToolInput acc.tool_inputs k)
    ∧ (acc.process_event
        (StreamEvent.ContentBlockDelta index (Delta.InputJsonDelta pj))).text = acc.text
    ∧ (acc.process_event
        (StreamEvent.ContentBlockDelta index (Delta.InputJsonDelta pj))).thinking
        = acc.thinking
    ∧ (acc.process_event
        (StreamEvent.ContentBlockDelta index (Delta.InputJsonDelta pj))).content_blocks
        = acc.content_blocks
    ∧ (acc.process_event
        (StreamEvent.ContentBlockDelta index (Delta.InputJsonDelta pj))).usage = acc.usage
    ∧ (acc.process_event
        (StreamEvent.ContentBlockDelta index (Delta.InputJsonDelta pj))).stop_reason
        = acc.stop_reason
    ∧ (acc.process_event
        (StreamEvent.ContentBlockDelta index (Delta.InputJsonDelta pj))).id = acc.id
    ∧ (acc.process_event
        (StreamEvent.ContentBlockDelta index (Delta.InputJsonDelta pj))).model
        = acc.model := by
  cases hblk : acc.content_blocks[index]? with
  | none =>
      simp [StreamAccumulator.process_event, hblk]
  | some blk =>
      cases blk with
      | ToolUse id name input =>
          simp [StreamAccumulator.process_event, hblk, lookupToolInput_appendToolInput]
      | Text t cc =>
          simp [StreamAccumulator.process_event, hblk]
      | Image src cc =>
          simp [StreamAccumulator.process_event, hblk]
      | ToolResult tid c ie =>
          simp [StreamAccumulator.process_event, hblk]
      | Thinking th sg =>
          simp [StreamAccumulator.process_event, hblk]
      | Document src cc =>
          simp [StreamAccumulator.process_event, hblk]

/-- C9: `ContentBlockStop`, `MessageStop`, `Ping`, `Error`, and a
`ContentBlockDelta` carrying a `SignatureDelta` leave the whole accumulator
unchanged (every field identical); in particular processing never fails and
no error state is stored for an `Error` event. -/
theorem C9_no_op_events (acc : StreamAccumulator) (i : Nat) (err : ErrorDetail)
    (sig : String) :
    acc.process_event (StreamEvent.ContentBlockStop i) = acc
    ∧ acc.process_event StreamEvent.MessageStop = acc
    ∧ acc.process_event StreamEvent.Ping = acc
    ∧ acc.process_event (StreamEvent.Error err) = acc
    ∧ acc.process_event (StreamEvent.ContentBlockDelta i (Delta.SignatureDelta sig)) = acc :=
  ⟨rfl, rfl, rfl, rfl, rfl⟩

/-- C10: every `process_event` call only ever extends accumulated data: the
number of content-block slots never decreases, and the global `text` view,
the global `thinking` view, and each `tool_inputs` entry are each extended
by appending a (possibly empty) suffix, never edited or removed. -/
theorem C10_append_only (acc : StreamAccumulator) (e : StreamEvent) :
    acc.content_blocks.length ≤ (acc.process_event e).content_blocks.length
    ∧ (acc.process_event e).text = acc.text ++ textAppendOf e
    ∧ (acc.process_event e).thinking = acc.thinking ++ thinkingAppendOf e
    ∧ ∀ k : String,
        (lookupToolInput (acc.process_event e).tool_inputs k).getD ""
          = (lookupToolInput acc.tool_inputs k).getD "" ++ toolAppendOf acc e k := by
  refine ⟨?_, process_event_text acc e, process_event_thinking acc e, ?_⟩
  · cases e with
    | ContentBlockStart i b =>
        simp only [StreamAccumulator.process_event, List.length_set]
        rw [padBlocks_eq]
        simp only [List.length_append, List.length_replicate]
        omega
    | ContentBlockDelta i d =>
        cases d with
        | TextDelta t =>
            simp only [StreamAccumulator.process_event]
            split <;> simp [List.length_set]
        | InputJsonDelta pj =>
            simp only [StreamAccumulator.process_event]
            split <;> simp
        | ThinkingDelta t => exact Nat.le_refl _
        | SignatureDelta s => exact Nat.le_refl _
    | MessageStart m => exact Nat.le_refl _
    | Ping => exact Nat.le_refl _
    | ContentBlockStop i => exact Nat.le_refl _
    | MessageDelta d u => exact Nat.le_refl _
    | MessageStop => exact Nat.le_refl _
    | Error err => exact Nat.le_refl _
  · intro k
    cases e with
    | ContentBlockDelta i d =>
        cases d with
        | InputJsonDelta pj =>
            cases hblk : acc.content_blocks[i]? with
            | none => simp only [StreamAccumulator.process_event, toolAppendOf, hblk]; simp
            | some blk =>
                cases blk with
                | ToolUse id name input =>
                    simp only [StreamAccumulator.process_event, toolAppendOf, hblk,
                      lookupToolInput_appendToolInput]
                    by_cases hk : k = id
                    · subst hk; simp
                    · simp [hk]
                | Text t cc =>
                    simp only [StreamAccumulator.process_event, toolAppendOf, hblk]; simp
                | Image src cc =>
                    simp only [StreamAccumulator.process_event, toolAppendOf, hblk]; simp
                | ToolResult tid c ie =>
                    simp only [StreamAccumulator.process_event, toolAppendOf, hblk]; simp
                | Thinking th sg =>
                    simp only [StreamAccumulator.process_event, toolAppendOf, hblk]; simp
                | Document src cc =>
                    simp only [StreamAccumulator.process_event, toolAppendOf, hblk]; simp
        | TextDelta t =>
            simp only [StreamAccumulator.process_event, toolAppendOf]
            split <;> simp
        | ThinkingDelta t => simp [StreamAccumulator.process_event, toolAppendOf]
        | SignatureDelta s => simp [StreamAccumulator.process_event, toolAppendOf]
    | MessageStart m => simp [StreamAccumulator.process_event, toolAppendOf]
    | ContentBlockStart i b => simp [StreamAccumulator.process_event, toolAppendOf]
    | Ping => simp [StreamAccumulator.process_event, toolAppendOf]
    | ContentBlockStop i => simp [StreamAccumulator.process_event, toolAppendOf]
    | MessageDelta d u => simp [StreamAccumulator.process_event, toolAppendOf]
    | MessageStop => simp [StreamAccumulator.process_event, toolAppendOf]
    | Error err => simp [StreamAccumulator.process_event, toolAppendOf]

/-- C7: a data line whose payload is not the `[DONE]` sentinel and fails
JSON decoding yields the typed `SerdeJsonError` error, which is distinct
from the no-event outcome used for stream end. (Decoding is a pure function
of the line: it takes no accumulator, so it cannot mutate one.) -/
theorem C7_malformed_data_line_typed_error (fromStr : String → Except String StreamEvent)
    (line data err : String)
    (h1 : rustStripStart line sseDataMarker = some data)
    (h2 : rustTrim data ≠ "[DONE]")
    (h3 : fromStr data = Except.error err) :
    parse_sse_line fromStr line = Except.error (AnthropicToolError.SerdeJsonError err)
    ∧ parse_sse_line fromStr line ≠ Except.ok none := by
  obtain ⟨hsw, hdata, tl, htl⟩ := rustStripStart_data_elim h1
  have hne : (rustTrim line).data.isEmpty = false :=
    rustTrim_isEmpty_false line 'd' tl htl (by decide)
  have hev : rustStartsWith line sseEventMarker = false := not_event_marker htl
  have hmain : parse_sse_line fromStr line
      = Except.error (AnthropicToolError.SerdeJsonError err) := by
    simp [parse_sse_line, hne, hev, h1, h2, h3]
  refine ⟨hmain, ?_⟩
  rw [hmain]
  intro hcontra
  exact Except.noConfusion hcontra

/-- Witness for C7: a data line with unparsable payload decodes to the
typed error. -/
theorem C7_witness :
    parse_sse_line (fun _ => Except.error "malformed") "data: nope"
        = Except.error (AnthropicToolError.SerdeJsonError "malformed")
    ∧ parse_sse_line (fun _ => Except.error "malformed") "data: nope"
        ≠ Except.ok none :=
  C7_malformed_data_line_typed_error (fun _ => Except.error "malformed")
    "data: nope" "nope" "malformed" (by decide) (by decide) rfl

/-- C8: line classification: a line trimming to empty yields no event; a
line starting with the event marker yields no event; a data line whose
trimmed remainder is the `[DONE]` sentinel yields no event; any line not
starting with the data marker yields no event rather than an error; and a
data line whose payload decodes to an event yields exactly that event. -/
theorem C8_line_classification (fromStr : String → Except String StreamEvent) :
    (∀ line : String, (rustTrim line).data.isEmpty = true →
        parse_sse_line fromStr line = Except.ok none)
    ∧ (∀ line : String, rustStartsWith line sseEventMarker = true →
        parse_sse_line fromStr line = Except.ok none)
    ∧ (∀ line data : String, rustStripStart line sseDataMarker = some data →
        rustTrim data = "[DONE]" → parse_sse_line fromStr line = Except.ok none)
    ∧ (∀ line : String, rustStartsWith line sseDataMarker = false →
        parse_sse_line fromStr line = Except.ok none)
    ∧ (∀ (line data : String) (ev : StreamEvent),
        rustStripStart line sseDataMarker = some data →
        rustTrim data ≠ "[DONE]" → fromStr data = Except.ok ev →
        parse_sse_line fromStr line = Except.ok (some ev)) := by
  refine ⟨?_, ?_, ?_, ?_, ?_⟩
  · intro line h
    simp [parse_sse_line, h]
  · intro line h
    by_cases hne : (rustTrim line).data.isEmpty
    · simp [parse_sse_line, hne]
    · simp [parse_sse_line, hne, h]
  · intro line data h hdone
    obtain ⟨hsw, hdata, tl, htl⟩ := rustStripStart_data_elim h
    have hne : (rustTrim line).data.isEmpty = false :=
      rustTrim_isEmpty_false line 'd' tl htl (by decide)
    have hev : rustStartsWith line sseEventMarker = false := not_event_marker htl
    simp [parse_sse_line, hne, hev, h, hdone]
  · intro line h
    have hnostrip : rustStripStart line sseDataMarker = none := by
      simp [rustStripStart, h]
    by_cases hne : (rustTrim line).data.isEmpty
    · simp [parse_sse_line, hne]
    · by_cases hev : rustStartsWith line sseEventMarker
      · simp [parse_sse_line, hne, hev]
      · simp [parse_sse_line, hne, hev, hnostrip]
  · intro line data ev h hdone hok
    obtain ⟨hsw, hdata, tl, htl⟩ := rustStripStart_data_elim h
    have hne : (rustTrim line).data.isEmpty = false :=
      rustTrim_isEmpty_false line 'd' tl htl (by decide)
    have hev : rustStartsWith line sseEventMarker = false := not_event_marker htl
    simp [parse_sse_line, hne, hev, h, hdone, hok]

/-- Witness for C8: the data line carrying the ping JSON object decodes to a
`Ping` event when the JSON decoder recognises that payload. -/
theorem C8_witness :
    parse_sse_line
        (fun s =>
          if s = "\x7b\"type\":\"ping\"\x7d" then Except.ok StreamEvent.Ping
          else Except.error "malformed")
        "data: \x7b\"type\":\"ping\"\x7d"
      = Except.ok (some StreamEvent.Ping) :=
  (C8_line_classification
      (fun s =>
        if s = "\x7b\"type\":\"ping\"\x7d" then Except.ok StreamEvent.Ping
        else Except.error "malformed")).2.2.2.2
    "data: \x7b\"type\":\"ping\"\x7d" "\x7b\"type\":\"ping\"\x7d" StreamEvent.Ping
    (by decide) (by decide) rfl
